import Mathlib

/-!
# Verification of the music-visualizer audio-reactive engine

A shallow embedding, in Lean 4, of the audio-reactive core of the
music-visualizer repository, together with proofs and refutations of the
specification's claims about it.

Embedding conventions:
* JavaScript numbers are modelled as exact rationals (`ℚ`); byte samples
  from `Uint8Array`s are `ℕ` values (0–255 at call sites).
* A JavaScript expression whose value is `NaN` (such as the unguarded
  `0 / 0` division in `getBassEnergy`) is modelled as `Option.none`.
* The JavaScript remainder operator `%` truncates the quotient toward
  zero; it is modelled by `jsRem` below.
* `Math.random()` draws and `Math.sin` are modelled as explicit
  parameters (`rand : ℚ` for the one draw an element consumes in a tick,
  and `sinq : ℚ → ℚ` for the sine function), keeping every definition a
  pure, executable function of its inputs.
-/

/-! ## JavaScript numeric helpers -/

/-- Truncation toward zero of a rational, as JavaScript's implicit
integer conversion in `a % b` (`a - b * trunc (a / b)`). -/
def trunc (q : ℚ) : ℤ := if 0 ≤ q then ⌊q⌋ else ⌈q⌉

/-- The JavaScript remainder `a % b` for rationals: the quotient is
truncated toward zero, so the result carries the sign of `a`. -/
def jsRem (a b : ℚ) : ℚ := a - b * (trunc (a / b) : ℚ)

theorem trunc_of_nonneg {q : ℚ} (h : 0 ≤ q) : trunc q = ⌊q⌋ := if_pos h

theorem trunc_of_neg {q : ℚ} (h : q < 0) : trunc q = ⌈q⌉ := if_neg (not_le.mpr h)

theorem jsRem_eq_fract {a b : ℚ} (ha : 0 ≤ a) (hb : 0 < b) :
    jsRem a b = b * Int.fract (a / b) := by
  rw [jsRem, trunc, if_pos (by positivity), Int.fract]
  field_simp

theorem jsRem_nonneg {a b : ℚ} (ha : 0 ≤ a) (hb : 0 < b) : 0 ≤ jsRem a b := by
  rw [jsRem_eq_fract ha hb]
  exact mul_nonneg hb.le (Int.fract_nonneg _)

theorem jsRem_lt {a b : ℚ} (ha : 0 ≤ a) (hb : 0 < b) : jsRem a b < b := by
  rw [jsRem_eq_fract ha hb]
  calc b * Int.fract (a / b) < b * 1 := by
        exact mul_lt_mul_of_pos_left (Int.fract_lt_one _) hb
  _ = b := mul_one b

theorem jsRem_neg_bounds {a b : ℚ} (ha : a < 0) (hb : 0 < b) :
    -b < jsRem a b ∧ jsRem a b ≤ 0 := by
  have hq : a / b < 0 := div_neg_of_neg_of_pos ha hb
  have : jsRem a b = -(b * Int.fract (-a / b)) := by
    rw [jsRem, trunc_of_neg hq, Int.fract, neg_div, Int.floor_neg]
    push_cast
    field_simp
    ring
  rw [this]
  constructor
  · have h1 : b * Int.fract (-a / b) < b * 1 :=
      mul_lt_mul_of_pos_left (Int.fract_lt_one _) hb
    linarith [h1]
  · have h2 : 0 ≤ b * Int.fract (-a / b) :=
      mul_nonneg hb.le (Int.fract_nonneg _)
    linarith [h2]

theorem jsRem_of_lt {a b : ℚ} (ha : 0 ≤ a) (hab : a < b) : jsRem a b = a := by
  have hb : 0 < b := lt_of_le_of_lt ha hab
  rw [jsRem_eq_fract ha hb, Int.fract_eq_self.mpr
    ⟨by positivity, (div_lt_one hb).mpr hab⟩]
  field_simp

/-! ## FeatureExtractor

From `src/renderer/audio/analyzer.ts` (`getAnalysisData`) and the
identical inline copy in the `Visualizer` component's `animate` loop.
The raw byte arrays are modelled as `List ℕ`. -/

/-- `averageFrequency`: `sum / frequencyData.length` from
`getAnalysisData`.  The division is unguarded in the source, so an empty
array produces `NaN` (modelled as `none`); otherwise the arithmetic mean
of the magnitudes (on the 0–255 scale, with no further normalization). -/
def averageFrequency (frequencyData : List ℕ) : Option ℚ :=
  if frequencyData.length = 0 then none
  else some ((frequencyData.map fun (x : ℕ) => (x : ℚ)).sum / frequencyData.length)

/-- The intensity value consumers derive from the frame, e.g.
`const intensity = analysisData.averageFrequency / 255` in
`HolidayVisualization.updateElements`. -/
def frameIntensity (avg : ℚ) : ℚ := avg / 255

/-- `peaks` (the frame's beat-onset list) from `getAnalysisData`: scan
`i = 1 .. length - 2` in ascending order and keep `i` when
`mag[i] > mag[i-1]`, `mag[i] > mag[i+1]` and `mag[i] > 200`. -/
def peaks (frequencyData : List ℕ) : List ℕ :=
  (List.range frequencyData.length).filter fun i =>
    decide (0 < i ∧ i + 1 < frequencyData.length ∧
      frequencyData.getD (i - 1) 0 < frequencyData.getD i 0 ∧
      frequencyData.getD (i + 1) 0 < frequencyData.getD i 0 ∧
      200 < frequencyData.getD i 0)

/-- The weighted bass sums of `getBassEnergy` (identical in
`HolidayVisualization`, `RectangularVisualization` and
`SunburstVisualization`): over `i < bassRange = floor (length * 0.1)`,
the weight of bin `i` is `1 - (i / bassRange) * 0.7` and the energy
contribution is `(mag[i] / 255) * weight`. -/
def bassWeightSum (bassRange : ℕ) : ℚ :=
  ((List.range bassRange).map fun (i : ℕ) =>
    1 - ((i : ℚ) / (bassRange : ℚ)) * (7 / 10)).sum

def bassEnergySum (frequencyData : List ℕ) (bassRange : ℕ) : ℚ :=
  ((List.range bassRange).map fun (i : ℕ) =>
    ((frequencyData.getD i 0 : ℚ) / 255) *
      (1 - ((i : ℚ) / (bassRange : ℚ)) * (7 / 10))).sum

/-- `getBassEnergy` from `holiday.ts` lines 1967–1983.  The source
returns `Math.pow(energy / weight, 1.5)` with NO guard on `weight`: when
`bassRange = 0` (fewer than 10 bins) the loop never runs and `0 / 0`
yields `NaN`, modelled as `none`.  Because the exponent 1.5 takes a
rational outside ℚ, we embed the SQUARE of the source's return value,
`(energy / weight) ^ 3 = ((energy / weight) ^ 1.5) ^ 2`, an exact
rational: `x ↦ x ^ 1.5` is injective and zero-preserving on the
nonnegative reals, so the embedded value is `some 0` exactly when the
source returns `0` and `none` exactly when it returns `NaN`. -/
def getBassEnergySq (frequencyData : List ℕ) : Option ℚ :=
  let bassRange := frequencyData.length / 10
  let energy := bassEnergySum frequencyData bassRange
  let weight := bassWeightSum bassRange
  if weight = 0 then none else some ((energy / weight) ^ 3)

theorem bassWeightSum_pos {bassRange : ℕ} (h : 1 ≤ bassRange) :
    0 < bassWeightSum bassRange := by
  apply List.sum_pos
  · intro x hx
    obtain ⟨i, hi, rfl⟩ := List.mem_map.mp hx
    have hi' : i < bassRange := List.mem_range.mp hi
    have hbr : (0 : ℚ) < bassRange := by
      exact_mod_cast Nat.lt_of_lt_of_le Nat.zero_lt_one h
    have hir : (i : ℚ) / bassRange < 1 := by
      rw [div_lt_one hbr]
      exact_mod_cast hi'
    have hnn : (0 : ℚ) ≤ (i : ℚ) / bassRange := by positivity
    nlinarith
  · apply List.ne_nil_of_length_pos
    simp only [List.length_map, List.length_range]
    omega

theorem bassEnergySum_eq_zero {frequencyData : List ℕ} {bassRange : ℕ}
    (h : ∀ x ∈ frequencyData, x = 0) :
    bassEnergySum frequencyData bassRange = 0 := by
  apply List.sum_eq_zero
  intro x hx
  simp only [List.mem_map, List.mem_range] at hx
  obtain ⟨i, _, rfl⟩ := hx
  rcases Nat.lt_or_ge i frequencyData.length with hlt | hge
  · rw [List.getD_eq_getElem _ _ hlt, h _ (frequencyData.getElem_mem hlt)]
    norm_num
  · rw [List.getD_eq_default _ _ hge]
    norm_num

theorem flat_getD_eq_zero {mags : List ℕ} (hflat : ∀ x ∈ mags, x = 0) (j : ℕ) :
    mags.getD j 0 = 0 := by
  rcases Nat.lt_or_ge j mags.length with hlt | hge
  · rw [List.getD_eq_getElem _ _ hlt]
    exact hflat _ (mags.getElem_mem hlt)
  · exact List.getD_eq_default _ _ hge

theorem peaks_of_flat {mags : List ℕ} (hflat : ∀ x ∈ mags, x = 0) :
    peaks mags = [] := by
  rw [peaks, List.filter_eq_nil_iff]
  intro i _
  simp only [decide_eq_true_eq, not_and]
  intro _ _ hlt
  rw [flat_getD_eq_zero hflat, flat_getD_eq_zero hflat] at hlt
  exact absurd hlt (lt_irrefl 0)

/-- Claim C1, counterexample: The claim asserts that EVERY all-zero
frequency-magnitude array yields `bassEnergy = 0`, "not NaN", because
the weighted-sum division is guarded by a `Σ weight > 0` check.  No such
guard exists in `getBassEnergy`: an all-zero array of 5 bins has
`bassRange = floor(5 * 0.1) = 0`, the loop body never runs, and the
unguarded `energy / weight = 0 / 0` evaluates to `NaN` (embedded as
`none`), not `0`. -/
theorem bassEnergy_flat_short_array_is_nan :
    (∀ x ∈ List.replicate 5 0, x = 0) ∧
    getBassEnergySq (List.replicate 5 0) = none ∧
    getBassEnergySq (List.replicate 5 0) ≠ some 0 := by
  refine ⟨fun x hx => ?_, by rfl, by decide⟩
  simpa using (List.eq_of_mem_replicate hx)

/-- Claim C1, amended: For every frequency-magnitude array whose entries
are all 0, feature extraction yields an empty beat-onset list, and —
provided the array has at least 10 bins, so that `bassRange ≥ 1` and the
weight sum is positive — a bass energy of exactly 0 rather than NaN.
(The `Σ weight > 0` guard claimed by the spec is absent: arrays with
fewer than 10 bins make the division 0/0 and produce NaN.) -/
theorem flat_spectrum_bassEnergy_zero_beatOnsets_empty (mags : List ℕ)
    (hflat : ∀ x ∈ mags, x = 0) (hlen : 10 ≤ mags.length) :
    getBassEnergySq mags = some 0 ∧ peaks mags = [] := by
  constructor
  · have hbr : 1 ≤ mags.length / 10 := by omega
    have hw : bassWeightSum (mags.length / 10) ≠ 0 :=
      ne_of_gt (bassWeightSum_pos hbr)
    rw [getBassEnergySq]
    simp only [hw, if_false, bassEnergySum_eq_zero hflat]
    norm_num
  · exact peaks_of_flat hflat

/-- Claim C1, witness: Applied to the all-zero 12-bin array. -/
theorem flat_spectrum_bassEnergy_zero_beatOnsets_empty_witness :
    getBassEnergySq (List.replicate 12 0) = some 0 ∧
    peaks (List.replicate 12 0) = [] :=
  flat_spectrum_bassEnergy_zero_beatOnsets_empty (List.replicate 12 0)
    (by decide) (by decide)

/-- Claim C2: For every frequency-magnitude array of length N, the
beat-onset list contains exactly the interior indices `1 ≤ i ≤ N - 2`
with `mag[i] > mag[i-1]`, `mag[i] > mag[i+1]` and `mag[i] > 200`, in
ascending order, and the single-spike scenario `[50,50,255,50,50,...]`
yields `[2]`. -/
theorem peaks_characterization (mags : List ℕ) :
    (peaks mags).Pairwise (· < ·) ∧
    (∀ i : ℕ, i ∈ peaks mags ↔ (1 ≤ i ∧ i + 1 < mags.length ∧
      mags.getD (i - 1) 0 < mags.getD i 0 ∧
      mags.getD (i + 1) 0 < mags.getD i 0 ∧
      200 < mags.getD i 0)) ∧
    peaks ([50, 50, 255, 50, 50] ++ List.replicate 5 50) = [2] := by
  refine ⟨(List.pairwise_lt_range _).filter _, fun i => ?_, by decide⟩
  simp only [peaks, List.mem_filter, List.mem_range, decide_eq_true_eq]
  constructor
  · rintro ⟨-, h⟩
    exact h
  · rintro h
    exact ⟨lt_of_le_of_lt (Nat.le_succ i) h.2.1, h⟩

/-- Claim C2, witness: The characterization applied to the spike scenario
at index 2. -/
theorem peaks_characterization_witness :
    (peaks ([50, 50, 255, 50, 50] ++ List.replicate 5 50)).Pairwise (· < ·) ∧
    (2 ∈ peaks ([50, 50, 255, 50, 50] ++ List.replicate 5 50) ↔
      (1 ≤ 2 ∧ 2 + 1 < ([50, 50, 255, 50, 50] ++ List.replicate 5 50).length ∧
        ([50, 50, 255, 50, 50] ++ List.replicate 5 50).getD (2 - 1) 0 <
          ([50, 50, 255, 50, 50] ++ List.replicate 5 50).getD 2 0 ∧
        ([50, 50, 255, 50, 50] ++ List.replicate 5 50).getD (2 + 1) 0 <
          ([50, 50, 255, 50, 50] ++ List.replicate 5 50).getD 2 0 ∧
        200 < ([50, 50, 255, 50, 50] ++ List.replicate 5 50).getD 2 0)) :=
  ⟨(peaks_characterization _).1, (peaks_characterization _).2.1 2⟩

/-! ## HueTracker

From `HolidayVisualization.updateElements` (`holiday.ts` lines 546–572)
and the `instrumentColors` table (lines 86–98). -/

/-- The `instrumentColors` label→hue table; `instrumentColors[label] || 0`
falls back to 0 for unknown labels (and maps `saxophone`'s 0 to 0 the
same way). -/
def instrumentColors (label : String) : ℚ :=
  match label with
  | "piano" => 210
  | "guitar" => 120
  | "bass" => 330
  | "drums" => 30
  | "violin" => 60
  | "cello" => 270
  | "flute" => 180
  | "saxophone" => 0
  | "trumpet" => 40
  | "synthesizer" => 300
  | "voice" => 150
  | _ => 0

/-- `colorTransitionSpeed = 0.01` (the easing rate). -/
def colorTransitionSpeed : ℚ := 1 / 100

/-- The shortest-path pre-shift of `updateElements`: when
`|targetHue - currentHue| > 180`, move `currentHue` by ±360 (adding 360
when `currentHue < targetHue`, else subtracting). -/
def hueShift (currentHue targetHue : ℚ) : ℚ :=
  if |targetHue - currentHue| > 180 then
    (if currentHue < targetHue then currentHue + 360 else currentHue - 360)
  else currentHue

/-- The final `((h % 360) + 360) % 360` wrap of `updateElements`. -/
def normalizeHue (h : ℚ) : ℚ := jsRem (jsRem h 360 + 360) 360

/-- One hue update of `updateElements`, taken in the branch where an
instrument prediction (source label) is present: look up the target hue,
pre-shift for the shortest path, ease by
`(targetHue - currentHue) * colorTransitionSpeed * (1 + intensity)`, and
normalize into `[0, 360)`. -/
def updateHue (currentHue : ℚ) (label : String) (intensity : ℚ) : ℚ :=
  let targetHue := instrumentColors label
  let shifted := hueShift currentHue targetHue
  let eased := shifted + (targetHue - shifted) * colorTransitionSpeed * (1 + intensity)
  normalizeHue eased

theorem normalizeHue_mem_Ico (h : ℚ) :
    0 ≤ normalizeHue h ∧ normalizeHue h < 360 := by
  have h360 : (0 : ℚ) < 360 := by norm_num
  have inner : -360 < jsRem h 360 ∧ jsRem h 360 < 360 := by
    rcases lt_or_le h 0 with hneg | hpos
    · obtain ⟨hl, hr⟩ := jsRem_neg_bounds hneg h360
      exact ⟨hl, lt_of_le_of_lt hr h360⟩
    · exact ⟨lt_of_lt_of_le (by norm_num) (jsRem_nonneg hpos h360),
        jsRem_lt hpos h360⟩
  have houter : 0 ≤ jsRem h 360 + 360 := by linarith [inner.1]
  exact ⟨jsRem_nonneg houter h360, jsRem_lt houter h360⟩

theorem normalizeHue_of_mem_Ico {h : ℚ} (h0 : 0 ≤ h) (h360 : h < 360) :
    normalizeHue h = h := by
  have hb : (0 : ℚ) < 360 := by norm_num
  have inner : jsRem h 360 = h := jsRem_of_lt h0 h360
  rw [normalizeHue, inner, jsRem_eq_fract (by linarith) hb]
  have hfr : Int.fract ((h + 360) / 360) = h / 360 := by
    have : (h + 360) / 360 = h / 360 + 1 := by ring
    rw [this, Int.fract_add_one]
    exact Int.fract_eq_self.mpr ⟨by positivity, by rw [div_lt_one hb]; exact h360⟩
  rw [hfr]
  field_simp

/-- Claim C3: In every hue update with a source label present: the stored
hue is first shifted by exactly +360 or -360 whenever
`|targetHue - currentHue| > 180` (and left alone otherwise), then eased
by `(targetHue - currentHue) * 0.01 * (1 + intensity)`, and the result
is normalized into `[0, 360)`.  In the scenario where the label flips
from piano (hue 210, the current hue) to drums (hue 30) with intensity
1.0, the updated hue is 206.4: it moves toward 30 along the decreasing
path (strictly between 30 and 210), never via the 210→360→30 arm. -/
theorem updateHue_shortest_path (c i : ℚ) (l : String) :
    (|instrumentColors l - c| > 180 →
      hueShift c (instrumentColors l) = c + 360 ∨
      hueShift c (instrumentColors l) = c - 360) ∧
    (|instrumentColors l - c| ≤ 180 → hueShift c (instrumentColors l) = c) ∧
    (updateHue c l i =
      normalizeHue (hueShift c (instrumentColors l) +
        (instrumentColors l - hueShift c (instrumentColors l)) *
          colorTransitionSpeed * (1 + i))) ∧
    (0 ≤ updateHue c l i ∧ updateHue c l i < 360) ∧
    (instrumentColors "piano" = 210 ∧ instrumentColors "drums" = 30 ∧
      updateHue 210 "drums" 1 = 1032 / 5 ∧
      (30 : ℚ) < 1032 / 5 ∧ (1032 : ℚ) / 5 < 210) := by
  refine ⟨?_, ?_, rfl, normalizeHue_mem_Ico _, rfl, rfl, ?_, by norm_num, by norm_num⟩
  · intro hgt
    rw [hueShift, if_pos hgt]
    split
    · exact Or.inl rfl
    · exact Or.inr rfl
  · intro hle
    rw [hueShift, if_neg (not_lt.mpr hle)]
  · show normalizeHue (hueShift 210 30 + (30 - hueShift 210 30) *
      colorTransitionSpeed * (1 + 1)) = 1032 / 5
    have hsh : hueShift 210 30 = 210 := by
      rw [hueShift, if_neg]
      norm_num
    rw [hsh, colorTransitionSpeed]
    norm_num
    exact normalizeHue_of_mem_Ico (by norm_num) (by norm_num)

/-- Claim C3, witness: The update applied at hue 0 with label "piano"
(target 210, a `|diff| > 180` case) and at the piano→drums scenario. -/
theorem updateHue_shortest_path_witness :
    (|instrumentColors "piano" - 0| > 180 →
      hueShift 0 (instrumentColors "piano") = 0 + 360 ∨
      hueShift 0 (instrumentColors "piano") = 0 - 360) ∧
    (0 ≤ updateHue 0 "piano" 0 ∧ updateHue 0 "piano" 0 < 360) ∧
    updateHue 210 "drums" 1 = 1032 / 5 :=
  ⟨(updateHue_shortest_path 0 0 "piano").1,
    (updateHue_shortest_path 0 0 "piano").2.2.2.1,
    (updateHue_shortest_path 210 1 "drums").2.2.2.2.2.2.1⟩

/-! ## PatternAnimator

From `HolidayVisualization.updateElements` (per-element loop, lines
574–610) and `updateElementAnimation` (lines 613–666).  `Math.sin` is an
explicit parameter `sinq`, and the single `Math.random()` draw an
element's pattern can consume in a tick is the parameter `rand`. -/

/-- The `AnimationPattern` enumeration of `holiday.ts`. -/
inductive AnimationPattern
  | STATIC | BLINK | CHASE | WAVE | TWINKLE | STROBE | FADE | ALTERNATE
  deriving DecidableEq

/-- An element's color: either a CSS color string or the
`hsl(hue, 100%, 50%)` value written by the dominant-instrument branch,
identified by its hue. -/
inductive LightColor
  | css (s : String)
  | hsl (hue : ℚ)
  deriving DecidableEq

/-- The pattern-local `state` record of a `LightElement`. -/
structure ElementState where
  position : ℚ
  strobePhase : ℚ
  fadeLevel : ℚ
  wavePosition : ℚ
  colorIndex : ℕ
  deriving DecidableEq

/-- The fields of `LightElement` the animation step reads or writes
(geometry fields `type`, `x`, `y`, `width`, `height` are draw-only and
omitted). -/
structure LightElement where
  color : LightColor
  brightness : ℚ
  active : Bool
  pattern : AnimationPattern
  freqRange : ℕ × ℕ
  instrument : Option String
  points : Option (List (ℚ × ℚ))
  lastUpdateTime : ℚ
  state : ElementState
  deriving DecidableEq

/-- The band energy computed for an element in `updateElements`: the
mean of `frequencyData[i] / 255` over `minFreq ≤ i ≤ maxFreq`, `i` in
range (0 when the band is empty), multiplied by 1.5 when the element's
instrument matches the dominant instrument. -/
def elementEnergy (dominantInstrument : Option String)
    (frequencyData : List ℕ) (el : LightElement) : ℚ :=
  let minFreq := el.freqRange.1
  let maxFreq := el.freqRange.2
  let idxs := (List.range frequencyData.length).filter fun i =>
    decide (minFreq ≤ i ∧ i ≤ maxFreq)
  let count := idxs.length
  let total := (idxs.map fun (i : ℕ) =>
    (frequencyData.getD i 0 : ℚ) / 255).sum
  let energy := if 0 < count then total / count else 0
  match el.instrument with
  | some s => if dominantInstrument = some s then energy * (3 / 2) else energy
  | none => energy

/-- `updateElementAnimation` (lines 613–666): the switch over the
element's pattern.  STATIC has no case and leaves the element unchanged;
the trailing `element.lastUpdateTime = now` assignment applies to every
pattern. -/
def updateElementAnimation (sinq : ℚ → ℚ) (rand : ℚ) (time : ℚ)
    (colorScheme : List LightColor) (now : ℚ)
    (el : LightElement) (energy : ℚ) : LightElement :=
  let el' :=
    match el.pattern with
    | .BLINK => { el with active := decide (0 < sinq (time * 5 * energy)) }
    | .CHASE =>
        { el with state :=
          { el.state with position := jsRem (el.state.position + energy * (1 / 10)) 1 } }
    | .TWINKLE =>
        if rand < energy * (2 / 10) then { el with active := !el.active } else el
    | .STROBE =>
        let phase := jsRem (el.state.strobePhase + energy * (5 / 10)) 1
        { el with state := { el.state with strobePhase := phase },
                  active := decide (phase < 1 / 2) }
    | .FADE =>
        let level := sinq (time * 2 * energy) * (1 / 2) + 1 / 2
        { el with state := { el.state with fadeLevel := level },
                  brightness := level * energy }
    | .ALTERNATE =>
        if rand < energy * (1 / 10) then
          let idx := (el.state.colorIndex + 1) % colorScheme.length
          { el with state := { el.state with colorIndex := idx },
                    color := colorScheme.getD idx el.color }
        else el
    | .WAVE =>
        match el.points with
        | some ps =>
            if 1 < ps.length then
              { el with state := { el.state with wavePosition := jsRem (time * energy) 1 } }
            else el
        | none => el
    | .STATIC => el
  { el' with lastUpdateTime := now }

/-- The final color assignment of the loop (lines 606–609): when a
dominant instrument is set and the element's instrument matches it, the
color becomes `hsl(currentHue, 100%, 50%)`. -/
def recolorIfDominant (dominantInstrument : Option String) (currentHue : ℚ)
    (el : LightElement) : LightElement :=
  match dominantInstrument with
  | some d => if el.instrument = some d then { el with color := .hsl currentHue } else el
  | none => el

/-- One per-element pass of the `updateElements` loop (lines 575–610):
compute the band energy, set the brightness to `min 1 (energy * 1.5)`,
self-activate when `energy > 0.3`, run the pattern animation, and
recolor to the eased hue when the element's instrument is the dominant
one. -/
def updateElement (sinq : ℚ → ℚ) (rand : ℚ) (time : ℚ)
    (colorScheme : List LightColor) (now : ℚ)
    (dominantInstrument : Option String) (currentHue : ℚ)
    (frequencyData : List ℕ) (el : LightElement) : LightElement :=
  let energy := elementEnergy dominantInstrument frequencyData el
  let el1 := { el with brightness := min 1 (energy * (3 / 2)) }
  let el2 := if energy > 3 / 10 then { el1 with active := true } else el1
  let el3 := updateElementAnimation sinq rand time colorScheme now el2 energy
  recolorIfDominant dominantInstrument currentHue el3

/-- A strobe-pattern light listening to bin 0 only, with every dynamic
field at its initial value. -/
def strobeElement : LightElement :=
  { color := .css "white", brightness := 0, active := false,
    pattern := .STROBE, freqRange := (0, 0), instrument := none,
    points := none, lastUpdateTime := 0,
    state := { position := 0, strobePhase := 0, fadeLevel := 0,
               wavePosition := 0, colorIndex := 0 } }

/-- The same light with the CHASE pattern. -/
def chaseElement : LightElement :=
  { strobeElement with pattern := .CHASE }

/-- Claim C5, counterexample: The claim asserts every element with band
energy above 0.3 ends the tick `active = true` regardless of pattern.
The self-activation happens BEFORE the pattern switch, and the STROBE
case then overwrites `active` with `strobePhase < 0.5`: a strobe element
with `strobePhase = 0` hearing a full-scale bin (energy 1 > 0.3) ends
the tick with `strobePhase = 0.5` and `active = false`. -/
theorem element_floor_activation_counterexample :
    elementEnergy none [255] strobeElement = 1 ∧
    (3 / 10 : ℚ) < 1 ∧
    (updateElement (fun _ => 0) 1 0 [] 0 none 0 [255] strobeElement).active
      = false := by
  have he : elementEnergy none [255] strobeElement = 1 := by
    simp [elementEnergy, strobeElement, List.range_succ]
  refine ⟨he, by norm_num, ?_⟩
  simp only [updateElement, he]
  rw [if_pos (by norm_num : (1 : ℚ) > 3 / 10)]
  simp only [updateElementAnimation, strobeElement]
  norm_num [jsRem, trunc]
  simp [recolorIfDominant]

theorem updateElementAnimation_active_of_safe (sinq : ℚ → ℚ)
    (rand time : ℚ) (colorScheme : List LightColor) (now energy : ℚ)
    (el : LightElement)
    (hpat : el.pattern = .STATIC ∨ el.pattern = .CHASE ∨
      el.pattern = .WAVE ∨ el.pattern = .FADE ∨ el.pattern = .ALTERNATE) :
    (updateElementAnimation sinq rand time colorScheme now el energy).active
      = el.active := by
  rcases hpat with h | h | h | h | h <;>
    simp only [updateElementAnimation, h] <;>
    repeat' first
      | rfl
      | split
      | rename_i ps _; cases ps

/-- Claim C5, amended: The `energy > 0.3` self-activation happens before
the pattern switch, so at the end of the tick it is guaranteed exactly
for the patterns whose switch case does not write `active`: STATIC,
CHASE, WAVE, FADE and ALTERNATE.  (BLINK and STROBE recompute `active`
afterwards, and TWINKLE may toggle it off, so for those three the claim
fails — see the counterexample.) -/
theorem element_floor_activation_safe_patterns (sinq : ℚ → ℚ)
    (rand time now currentHue : ℚ) (colorScheme : List LightColor)
    (dominantInstrument : Option String) (frequencyData : List ℕ)
    (el : LightElement)
    (henergy : 3 / 10 < elementEnergy dominantInstrument frequencyData el)
    (hpat : el.pattern = .STATIC ∨ el.pattern = .CHASE ∨
      el.pattern = .WAVE ∨ el.pattern = .FADE ∨ el.pattern = .ALTERNATE) :
    (updateElement sinq rand time colorScheme now dominantInstrument
      currentHue frequencyData el).active = true := by
  have hrec : ∀ e : LightElement,
      (recolorIfDominant dominantInstrument currentHue e).active = e.active := by
    intro e
    cases dominantInstrument with
    | none => rfl
    | some d =>
        rw [recolorIfDominant]
        split <;> rfl
  simp only [updateElement, gt_iff_lt, if_pos henergy]
  rw [hrec, updateElementAnimation_active_of_safe sinq rand time colorScheme now
    (elementEnergy dominantInstrument frequencyData el)
    { el with brightness := min 1 (elementEnergy dominantInstrument frequencyData el * (3 / 2)),
              active := true } hpat]

/-- Claim C5, witness: The amended guarantee applied to the chase element
hearing a full-scale bin. -/
theorem element_floor_activation_safe_patterns_witness :
    (updateElement (fun _ => 0) 1 0 [] 0 none 0 [255] chaseElement).active
      = true :=
  element_floor_activation_safe_patterns (fun _ => 0) 1 0 0 0 [] none [255]
    chaseElement
    (by norm_num [elementEnergy, chaseElement, strobeElement, List.range_succ])
    (Or.inr (Or.inl rfl))


/-! ## Transport: the `AudioPlayer` class (`player.ts`)

State fields of the class; the engine clock (`audioContext.currentTime`)
is an explicit `now : ℚ` argument to each operation.  The gain and
analyser nodes are created unconditionally in the constructor and never
nulled, so they are modelled as always present; the audio buffer is
modelled by its duration. -/

structure PlayerState where
  currentBuffer : Option ℚ
  hasSource : Bool
  gain : ℚ
  startTime : ℚ
  pauseTime : ℚ
  isPlaying : Bool
  deriving DecidableEq

/-- The state right after the constructor runs (`gain.value = 1.0`). -/
def initPlayer : PlayerState :=
  { currentBuffer := none, hasSource := false, gain := 1,
    startTime := 0, pauseTime := 0, isPlaying := false }

/-- `loadAudio`: store the decoded buffer. -/
def loadAudio (duration : ℚ) (s : PlayerState) : PlayerState :=
  { s with currentBuffer := some duration }

/-- `stop`: if a source exists, stop and drop it, clear `isPlaying` and
reset `pauseTime`; otherwise do nothing. -/
def playerStop (s : PlayerState) : PlayerState :=
  if s.hasSource then
    { s with hasSource := false, isPlaying := false, pauseTime := 0 }
  else s

/-- `play`: no-op without a loaded buffer; otherwise stop any current
playback, create a fresh source, seed it at `pauseTime` when positive
(setting `startTime = now - pauseTime`) or at 0 (setting
`startTime = now`), and mark playing. -/
def playerPlay (now : ℚ) (s : PlayerState) : PlayerState :=
  match s.currentBuffer with
  | none => s
  | some _ =>
      let s1 := if s.isPlaying then playerStop s else s
      let s2 := { s1 with hasSource := true }
      if (0 : ℚ) < s2.pauseTime then
        { s2 with startTime := now - s2.pauseTime, isPlaying := true }
      else
        { s2 with startTime := now, isPlaying := true }

/-- `getCurrentTime`: `pauseTime` when not playing, else
`now - startTime`. -/
def getCurrentTime (now : ℚ) (s : PlayerState) : ℚ :=
  if s.isPlaying then now - s.startTime else s.pauseTime

/-- `pause`: no-op unless playing with a live source; otherwise capture
`pauseTime = getCurrentTime()`, tear the source down and clear
`isPlaying`. -/
def playerPause (now : ℚ) (s : PlayerState) : PlayerState :=
  if s.isPlaying ∧ s.hasSource then
    { s with pauseTime := getCurrentTime now s, hasSource := false,
             isPlaying := false }
  else s

/-- The clamp of `setVolume`: `Math.max(0, Math.min(1, volume))`. -/
def clampedVolume (volume : ℚ) : ℚ := max 0 (min 1 volume)

/-- `setVolume`: store the clamped gain (the gain node always exists). -/
def setVolume (volume : ℚ) (s : PlayerState) : PlayerState :=
  { s with gain := clampedVolume volume }

/-- `seekTo`: no-op without a buffer; clamp the target into
`[0, duration]`, stop if playing, store the clamped time as `pauseTime`,
and resume via `play` if it had been playing. -/
def seekTo (now t : ℚ) (s : PlayerState) : PlayerState :=
  match s.currentBuffer with
  | none => s
  | some duration =>
      let clampedTime := max 0 (min duration t)
      let wasPlaying := s.isPlaying
      let s1 := if s.isPlaying then playerStop s else s
      let s2 := { s1 with pauseTime := clampedTime }
      if wasPlaying then playerPlay now s2 else s2

/-- The body of the `sourceNode.onended` handler installed by `play`
(`player.ts` lines 61–64): unconditionally clear `isPlaying` and reset
`pauseTime` — with no check that the completing source is still the
active one. -/
def playerOnEnded (s : PlayerState) : PlayerState :=
  { s with isPlaying := false, pauseTime := 0 }

/-- One externally triggerable transition of the player at clock time
`now`: a public method call, or an `onended` completion delivered by the
engine. -/
inductive PlayerStep (now : ℚ) (s : PlayerState) : PlayerState → Prop
  | load (duration : ℚ) : PlayerStep now s (loadAudio duration s)
  | play : PlayerStep now s (playerPlay now s)
  | pause : PlayerStep now s (playerPause now s)
  | stop : PlayerStep now s (playerStop s)
  | seek (t : ℚ) : PlayerStep now s (seekTo now t s)
  | volume (v : ℚ) : PlayerStep now s (setVolume v s)
  | ended : PlayerStep now s (playerOnEnded s)

/-- Reachability of a player state at engine-clock time `now`: the
constructor may finish at any clock time, and steps occur at
nondecreasing clock times. -/
inductive PlayerReachable : ℚ → PlayerState → Prop
  | init (now : ℚ) : PlayerReachable now initPlayer
  | step {t t' : ℚ} {s s' : PlayerState} : PlayerReachable t s → t ≤ t' →
      PlayerStep t' s s' → PlayerReachable t' s'

/-- The player invariant: `pauseTime` is never negative, and while
playing the buffer is loaded, a source is live, and `startTime` does not
exceed the current clock. -/
def PlayerInv (now : ℚ) (s : PlayerState) : Prop :=
  0 ≤ s.pauseTime ∧
  (s.isPlaying = true →
    s.currentBuffer.isSome = true ∧ s.hasSource = true ∧ s.startTime ≤ now)

theorem playerInv_mono {t t' : ℚ} {s : PlayerState}
    (h : PlayerInv t s) (hle : t ≤ t') : PlayerInv t' s :=
  ⟨h.1, fun hp => ⟨(h.2 hp).1, (h.2 hp).2.1, le_trans (h.2 hp).2.2 hle⟩⟩

theorem playerInv_load {now duration : ℚ} {s : PlayerState}
    (h : PlayerInv now s) : PlayerInv now (loadAudio duration s) :=
  ⟨h.1, fun hp => ⟨rfl, (h.2 hp).2.1, (h.2 hp).2.2⟩⟩

theorem playerStop_buffer (s : PlayerState) :
    (playerStop s).currentBuffer = s.currentBuffer := by
  rw [playerStop]
  split <;> rfl

theorem playerInv_stop {now : ℚ} {s : PlayerState}
    (h : PlayerInv now s) : PlayerInv now (playerStop s) := by
  rw [playerStop]
  split
  · exact ⟨le_refl 0, fun hp => by simp at hp⟩
  · exact h

theorem playerInv_play {now : ℚ} {s : PlayerState}
    (h : PlayerInv now s) : PlayerInv now (playerPlay now s) := by
  rw [playerPlay]
  cases hbuf : s.currentBuffer with
  | none => exact h
  | some d =>
      dsimp only []
      cases hp : s.isPlaying with
      | true =>
          have hsrc : s.hasSource = true := (h.2 hp).2.1
          simp only [if_true]
          have hstop : playerStop s =
              { s with hasSource := false, isPlaying := false, pauseTime := 0 } := by
            rw [playerStop, if_pos hsrc]
          rw [hstop]
          norm_num
          exact ⟨le_refl 0, fun _ => ⟨by rw [hbuf]; rfl, rfl, le_refl now⟩⟩
      | false =>
          simp only [Bool.false_eq_true, if_false]
          split
          · refine ⟨h.1, fun _ => ⟨by rw [hbuf]; rfl, rfl, ?_⟩⟩
            show now - s.pauseTime ≤ now
            linarith [h.1]
          · exact ⟨h.1, fun _ => ⟨by rw [hbuf]; rfl, rfl, le_refl now⟩⟩

theorem playerInv_pause {now : ℚ} {s : PlayerState}
    (h : PlayerInv now s) : PlayerInv now (playerPause now s) := by
  rw [playerPause]
  split
  · rename_i hc
    refine ⟨?_, fun hp => by simp at hp⟩
    show 0 ≤ getCurrentTime now s
    rw [getCurrentTime, if_pos hc.1]
    have := (h.2 hc.1).2.2
    linarith
  · exact h

theorem playerInv_seek {now t : ℚ} {s : PlayerState}
    (h : PlayerInv now s) : PlayerInv now (seekTo now t s) := by
  rw [seekTo]
  cases hbuf : s.currentBuffer with
  | none => exact h
  | some d =>
      dsimp only []
      cases hp : s.isPlaying with
      | true =>
          simp only [if_true]
          apply playerInv_play
          exact ⟨le_max_left 0 _, fun hcon => by
            have : (playerStop s).isPlaying = false := by
              rw [playerStop, if_pos (h.2 hp).2.1]
            simp only [this] at hcon
            cases hcon⟩
      | false =>
          simp only [Bool.false_eq_true, if_false]
          exact ⟨le_max_left 0 _, fun hcon => by
            simp only [hp] at hcon
            cases hcon⟩

theorem playerInv_volume {now v : ℚ} {s : PlayerState}
    (h : PlayerInv now s) : PlayerInv now (setVolume v s) :=
  ⟨h.1, fun hp => ⟨(h.2 hp).1, (h.2 hp).2.1, (h.2 hp).2.2⟩⟩

theorem playerInv_ended {now : ℚ} {s : PlayerState} :
    PlayerInv now (playerOnEnded s) :=
  ⟨le_refl 0, fun hp => by simp [playerOnEnded] at hp⟩

theorem playerInv_of_reachable {now : ℚ} {s : PlayerState}
    (h : PlayerReachable now s) : PlayerInv now s := by
  induction h with
  | init now =>
      exact ⟨le_refl 0, fun hp => by simp [initPlayer] at hp⟩
  | step hr hle hstep ih =>
      have ih' := playerInv_mono ih hle
      cases hstep with
      | load duration => exact playerInv_load ih'
      | play => exact playerInv_play ih'
      | pause => exact playerInv_pause ih'
      | stop => exact playerInv_stop ih'
      | seek t => exact playerInv_seek ih'
      | volume v => exact playerInv_volume ih'
      | ended => exact playerInv_ended

/-- Claim C4: For every reachable transport state that is playing at
reported position `t = getCurrentTime now s`, calling `pause()` and then
immediately `play()` (no intervening seek, unchanged engine clock)
yields a playing state whose reported position again equals `t`: pause
stores `pauseTime = now - startTime`, and resume re-creates the source
seeded at `pauseTime` with `startTime = now - pauseTime`. -/
theorem pause_play_roundtrip_preserves_position {now : ℚ} {s : PlayerState}
    (hreach : PlayerReachable now s) (hplaying : s.isPlaying = true) :
    (playerPlay now (playerPause now s)).isPlaying = true ∧
    getCurrentTime now (playerPlay now (playerPause now s)) =
      getCurrentTime now s := by
  obtain ⟨hpz, hinv⟩ := playerInv_of_reachable hreach
  obtain ⟨hbuf, hsrc, hstart⟩ := hinv hplaying
  obtain ⟨d, hd⟩ := Option.isSome_iff_exists.mp hbuf
  have hpaused : playerPause now s =
      { s with pauseTime := now - s.startTime, hasSource := false,
               isPlaying := false } := by
    rw [playerPause, if_pos ⟨hplaying, hsrc⟩, getCurrentTime, if_pos hplaying]
  rw [hpaused, playerPlay]
  show PlayerState.isPlaying (match s.currentBuffer with
    | none => _ | some _ => _) = true ∧
    getCurrentTime now (match s.currentBuffer with
    | none => _ | some _ => _) = getCurrentTime now s
  rw [hd]
  simp only [Bool.false_eq_true, if_false]
  have h0 : 0 ≤ now - s.startTime := by linarith
  rcases eq_or_lt_of_le h0 with heq | hlt
  · rw [if_neg (by rw [← heq]; exact lt_irrefl 0)]
    refine ⟨rfl, ?_⟩
    simp only [getCurrentTime, hplaying, if_true]
    linarith
  · rw [if_pos hlt]
    refine ⟨rfl, ?_⟩
    simp only [getCurrentTime, hplaying, if_true]
    ring

/-- Claim C4, witness: The round trip applied to the state obtained by
loading a 60-second buffer and playing it from the start at clock 0. -/
theorem pause_play_roundtrip_preserves_position_witness :
    (playerPlay 0 (playerPause 0 (playerPlay 0 (loadAudio 60 initPlayer)))).isPlaying
      = true ∧
    getCurrentTime 0 (playerPlay 0 (playerPause 0 (playerPlay 0 (loadAudio 60 initPlayer))))
      = getCurrentTime 0 (playerPlay 0 (loadAudio 60 initPlayer)) :=
  pause_play_roundtrip_preserves_position
    (.step (.step (.init 0) le_rfl (.load 60)) le_rfl .play)
    (by simp [playerPlay, loadAudio, initPlayer])

/-- Claim C9: `play()` is a no-op when no buffer is loaded, and therefore
every reachable state with `isPlaying = true` has a loaded buffer. -/
theorem isPlaying_implies_buffer_loaded :
    (∀ (now : ℚ) (s : PlayerState), s.currentBuffer = none →
      playerPlay now s = s) ∧
    (∀ (now : ℚ) (s : PlayerState), PlayerReachable now s →
      s.isPlaying = true → s.currentBuffer.isSome = true) := by
  constructor
  · intro now s hbuf
    rw [playerPlay, hbuf]
  · intro now s hr hp
    exact ((playerInv_of_reachable hr).2 hp).1

/-- Claim C9, witness: The fresh player has no buffer, so `play()` leaves
it unchanged; after loading and playing, the playing state's buffer is
present. -/
theorem isPlaying_implies_buffer_loaded_witness :
    playerPlay 0 initPlayer = initPlayer ∧
    (playerPlay 0 (loadAudio 60 initPlayer)).currentBuffer.isSome = true :=
  ⟨isPlaying_implies_buffer_loaded.1 0 initPlayer rfl,
   isPlaying_implies_buffer_loaded.2 0 _
     (.step (.step (.init 0) le_rfl (.load 60)) le_rfl .play)
     (by simp [playerPlay, loadAudio, initPlayer])⟩

/-- Claim C10: `setVolume(v)` stores exactly `v` clamped into `[0, 1]`:
values below 0 become 0, values above 1 become 1, in-range values are
stored unchanged, and the stored gain always lies in `[0, 1]`. -/
theorem setVolume_clamps (v : ℚ) (s : PlayerState) :
    (setVolume v s).gain = clampedVolume v ∧
    (v < 0 → clampedVolume v = 0) ∧
    (1 < v → clampedVolume v = 1) ∧
    (0 ≤ v → v ≤ 1 → clampedVolume v = v) ∧
    0 ≤ clampedVolume v ∧ clampedVolume v ≤ 1 := by
  refine ⟨rfl, ?_, ?_, ?_, le_max_left 0 _, ?_⟩
  · intro hv
    rw [clampedVolume, min_eq_right (by linarith), max_eq_left (by linarith)]
  · intro hv
    rw [clampedVolume, min_eq_left (by linarith), max_eq_right (by norm_num)]
  · intro hv0 hv1
    rw [clampedVolume, min_eq_right hv1, max_eq_right hv0]
  · exact max_le (by norm_num) (min_le_left 1 v)

/-- Claim C10, witness: Clamping applied at volume 2 on the fresh
player. -/
theorem setVolume_clamps_witness :
    (setVolume 2 initPlayer).gain = clampedVolume 2 ∧ clampedVolume 2 = 1 ∧
    0 ≤ clampedVolume 2 ∧ clampedVolume 2 ≤ 1 :=
  ⟨(setVolume_clamps 2 initPlayer).1,
   (setVolume_clamps 2 initPlayer).2.2.1 (by norm_num),
   (setVolume_clamps 2 initPlayer).2.2.2.2⟩

/-! ## Transport: the App component (`handlePlayPause` and friends)

The App component keeps its own inline transport (refs plus React
state).  Its `onended` handler — unlike the `AudioPlayer` class's —
guards on `sourceNodeRef.current === sourceNode`.  Source nodes are
identified by numeric ids. -/

structure AppState where
  isPlaying : Bool
  isPaused : Bool
  currentTime : ℚ
  startTime : ℚ
  pauseTime : ℚ
  sourceNode : Option ℕ
  deriving DecidableEq

/-- The `sourceNode.onended` handler installed by `handlePlayPause`:
reset the transport (Stopped at position 0) ONLY when the completing
source is still the active one. -/
def appOnEnded (endedSource : ℕ) (s : AppState) : AppState :=
  if s.sourceNode = some endedSource then
    { s with isPlaying := false, isPaused := false,
             currentTime := 0, pauseTime := 0 }
  else s

/-- The App transport paused at position 5 after its source (id 3) was
stopped and dropped by the pause branch of `handlePlayPause`. -/
def appPausedState : AppState :=
  { isPlaying := false, isPaused := true, currentTime := 5,
    startTime := 0, pauseTime := 5, sourceNode := none }

/-- The App transport playing from 0 at clock 0 with active source
id 3. -/
def appPlayingState : AppState :=
  { isPlaying := true, isPaused := false, currentTime := 2,
    startTime := 0, pauseTime := 0, sourceNode := some 3 }

/-- Claim C7: In the App transport the claim holds: a completion from
source 3 — stopped and replaced by `none` during pause — is ignored
(state unchanged, `pauseTime` still 5), while the active source's
completion stops the transport and resets both positions to 0.  The
`AudioPlayer` class, however, violates the claim: its `onended` body
(lines 61–64 of `player.ts`) has no active-source check, so after
`play()` at clock 0 and `pause()` at clock 5 (which stops the source, so
the completion it triggers is stale — `hasSource = false`), the stale
completion still resets `pauseTime` from 5 to 0, changing the transport
state and losing the resume position. -/
theorem stale_onended_guard_appTransport_vs_player :
    (appOnEnded 3 appPausedState = appPausedState ∧
     appPausedState.pauseTime = 5 ∧
     (appOnEnded 3 appPlayingState).isPlaying = false ∧
     (appOnEnded 3 appPlayingState).currentTime = 0 ∧
     (appOnEnded 3 appPlayingState).pauseTime = 0) ∧
    ((playerPause 5 (playerPlay 0 (loadAudio 10 initPlayer))).hasSource = false ∧
     (playerPause 5 (playerPlay 0 (loadAudio 10 initPlayer))).pauseTime = 5 ∧
     (playerOnEnded (playerPause 5 (playerPlay 0 (loadAudio 10 initPlayer)))).pauseTime = 0 ∧
     playerOnEnded (playerPause 5 (playerPlay 0 (loadAudio 10 initPlayer))) ≠
       playerPause 5 (playerPlay 0 (loadAudio 10 initPlayer)) ∧
     getCurrentTime 9 (playerPause 5 (playerPlay 0 (loadAudio 10 initPlayer))) = 5 ∧
     getCurrentTime 9 (playerOnEnded (playerPause 5 (playerPlay 0 (loadAudio 10 initPlayer)))) = 0) := by
  have hplayed : playerPlay 0 (loadAudio 10 initPlayer) =
      { currentBuffer := some 10, hasSource := true, gain := 1,
        startTime := 0, pauseTime := 0, isPlaying := true } := by
    norm_num [playerPlay, loadAudio, initPlayer]
  have hpaused : playerPause 5 (playerPlay 0 (loadAudio 10 initPlayer)) =
      { currentBuffer := some 10, hasSource := false, gain := 1,
        startTime := 0, pauseTime := 5, isPlaying := false } := by
    rw [hplayed]
    norm_num [playerPause, getCurrentTime]
  refine ⟨⟨?_, rfl, ?_, ?_, ?_⟩, ?_⟩
  · simp [appOnEnded, appPausedState]
  · norm_num [appOnEnded, appPlayingState]
  · norm_num [appOnEnded, appPlayingState]
  · norm_num [appOnEnded, appPlayingState]
  · rw [hpaused]
    refine ⟨rfl, rfl, rfl, ?_, ?_, ?_⟩
    · intro hcon
      have := congrArg PlayerState.pauseTime hcon
      norm_num [playerOnEnded] at this
    · norm_num [getCurrentTime]
    · norm_num [getCurrentTime, playerOnEnded]

/-! ## Visualization switching (the `Visualizer` component)

The visualization-switch `useEffect` (cleanup of the other family's
instances and canvas preparation) followed by the first `animate` tick
of the newly selected type, which lazily constructs the new instance in
its `drawX` helper and draws it.  Only sunburst, rectangular, holiday
and holiday3d are instance-backed; the remaining types draw directly
with no persistent instance. -/

inductive VizType
  | spectrum | waveform | particles | cosmic | psychedelic
  | sunburst | rectangular | holiday | holiday3d
  deriving DecidableEq, Fintype

/-- Which identifiers own a persistent visualization instance (a
`useRef` holding an object with `destroy()`). -/
def VizType.instanceBacked : VizType → Bool
  | .sunburst | .rectangular | .holiday | .holiday3d => true
  | _ => false

/-- Whether the identifier belongs to the 3D family (dedicated canvas
and WebGL context). -/
def VizType.is3D : VizType → Bool
  | .holiday3d => true
  | _ => false

/-- Which instance refs are currently non-null. -/
structure VizRefs where
  sunburst : Bool
  rectangular : Bool
  holiday : Bool
  holiday3d : Bool
  deriving DecidableEq

/-- Observable lifecycle events of a switch: `destroy()` on an instance
of the given type, or a draw of the given type. -/
inductive VizEvent
  | destroyed (t : VizType)
  | drew (t : VizType)
  deriving DecidableEq

/-- The cleanup block of the visualization-switch `useEffect`: when the
new type is holiday3d, destroy and null every live 2D instance (in
source order sunburst, rectangular, holiday); otherwise destroy and null
the 3D instance if live.  Instances of the same (2D) family as the new
type are NOT touched. -/
def cleanupOnSwitch (newType : VizType) (r : VizRefs) : VizRefs × List VizEvent :=
  if newType = .holiday3d then
    ({ r with sunburst := false, rectangular := false, holiday := false },
      (if r.sunburst then [.destroyed .sunburst] else []) ++
      (if r.rectangular then [.destroyed .rectangular] else []) ++
      (if r.holiday then [.destroyed .holiday] else []))
  else
    ({ r with holiday3d := false },
      if r.holiday3d then [.destroyed .holiday3d] else [])

/-- The first `animate` tick after the switch: the instance-backed draw
helpers lazily construct their instance (`if (!ref.current) ref.current
= new ...`), then draw. -/
def firstDraw (t : VizType) (r : VizRefs) : VizRefs × List VizEvent :=
  (match t with
   | .sunburst => { r with sunburst := true }
   | .rectangular => { r with rectangular := true }
   | .holiday => { r with holiday := true }
   | .holiday3d => { r with holiday3d := true }
   | _ => r,
   [.drew t])

/-- A full visualization switch: the effect's cleanup, then the first
tick of the new type. -/
def switchTo (t : VizType) (r : VizRefs) : VizRefs × List VizEvent :=
  let c := cleanupOnSwitch t r
  let d := firstDraw t c.1
  (d.1, c.2 ++ d.2)

/-- The ref state in which exactly the instance of type `p` is live. -/
def singleRef (p : VizType) : VizRefs :=
  { sunburst := decide (p = .sunburst),
    rectangular := decide (p = .rectangular),
    holiday := decide (p = .holiday),
    holiday3d := decide (p = .holiday3d) }

/-- Claim C6, counterexample: The claim says every switch invokes exactly
one `destroy()` on the previously active instance before the new type is
drawn.  Switching from sunburst to rectangular (both 2D) destroys
nothing: the event trace is just the draw of the new type, the count of
`destroy(sunburst)` events is 0, and the sunburst instance is still
live afterwards. -/
theorem viz_switch_no_destroy_counterexample :
    (switchTo .rectangular (singleRef .sunburst)).2 = [.drew .rectangular] ∧
    (switchTo .rectangular (singleRef .sunburst)).2.count
      (.destroyed .sunburst) = 0 ∧
    (switchTo .rectangular (singleRef .sunburst)).1.sunburst = true := by
  decide

/-- Claim C6, amended: With exactly the previous type's instance live, a
switch destroys the previous instance exactly once, and before the new
type's first draw, IF AND ONLY IF the switch crosses the 2D/3D family
boundary; a switch within the 2D family performs no destroy at all and
leaves the previous instance cached. -/
theorem viz_switch_destroy_only_on_family_change (p t : VizType)
    (hp : p.instanceBacked = true) (hne : t ≠ p) :
    (p.is3D ≠ t.is3D →
      (switchTo t (singleRef p)).2 = [.destroyed p, .drew t]) ∧
    (p.is3D = t.is3D →
      (switchTo t (singleRef p)).2 = [.drew t]) := by
  revert hp hne
  revert p t
  decide

/-- Claim C6, witness: The amended statement applied to the
sunburst→holiday3d switch (family change: one destroy, before the
draw) and to the sunburst→rectangular switch (same family: no
destroy). -/
theorem viz_switch_destroy_only_on_family_change_witness :
    (switchTo .holiday3d (singleRef .sunburst)).2 =
      [.destroyed .sunburst, .drew .holiday3d] ∧
    (switchTo .rectangular (singleRef .sunburst)).2 =
      [.drew .rectangular] :=
  ⟨(viz_switch_destroy_only_on_family_change .sunburst .holiday3d
      (by decide) (by decide)).1 (by decide),
   (viz_switch_destroy_only_on_family_change .sunburst .rectangular
      (by decide) (by decide)).2 (by decide)⟩

/-! ## The `averageFrequency` field (C8) -/

/-- Claim C8, counterexample: The claim says the frame's average-intensity
field equals the arithmetic mean divided by 255 and lies in `[0, 1]`.
The field the frame actually carries is `averageFrequency = sum /
length` with no normalization: for the one-bin array `[255]` it is 255,
not `255 / 255 = 1`, and not ≤ 1. -/
theorem averageFrequency_not_normalized :
    averageFrequency [255] = some 255 ∧
    (255 : ℚ) ≠ 255 / 255 ∧ ¬ ((255 : ℚ) ≤ 1) := by
  refine ⟨?_, by norm_num, by norm_num⟩
  norm_num [averageFrequency]

/-- Claim C8, amended: The frame's `averageFrequency` field is the plain
arithmetic mean of the magnitudes, lying in `[0, 255]` for nonempty
byte arrays; it is the consumers that divide by 255
(`intensity = averageFrequency / 255`), and that derived intensity lies
in `[0, 1]`. -/
theorem averageFrequency_mean_bounds (mags : List ℕ)
    (hne : mags ≠ []) (hbound : ∀ x ∈ mags, x ≤ 255) :
    averageFrequency mags =
      some ((mags.map fun (x : ℕ) => (x : ℚ)).sum / mags.length) ∧
    (∀ q, averageFrequency mags = some q →
      0 ≤ q ∧ q ≤ 255 ∧ 0 ≤ frameIntensity q ∧ frameIntensity q ≤ 1) := by
  have hlen : mags.length ≠ 0 := fun h => hne (List.eq_nil_of_length_eq_zero h)
  have hlenq : (0 : ℚ) < mags.length := by
    have : 0 < mags.length := Nat.pos_of_ne_zero hlen
    exact_mod_cast this
  have havg : averageFrequency mags =
      some ((mags.map fun (x : ℕ) => (x : ℚ)).sum / mags.length) := by
    rw [averageFrequency, if_neg hlen]
  refine ⟨havg, fun q hq => ?_⟩
  rw [havg] at hq
  obtain rfl : (mags.map fun (x : ℕ) => (x : ℚ)).sum / mags.length = q :=
    Option.some_injective ℚ hq
  have hsum0 : 0 ≤ (mags.map fun (x : ℕ) => (x : ℚ)).sum := by
    apply List.sum_nonneg
    intro x hx
    obtain ⟨y, _, rfl⟩ := List.mem_map.mp hx
    positivity
  have hsum255 : (mags.map fun (x : ℕ) => (x : ℚ)).sum ≤ mags.length * 255 := by
    calc (mags.map fun (x : ℕ) => (x : ℚ)).sum
        ≤ (mags.map fun (x : ℕ) => (x : ℚ)).length • (255 : ℚ) := by
          apply List.sum_le_card_nsmul
          intro x hx
          obtain ⟨y, hy, rfl⟩ := List.mem_map.mp hx
          exact_mod_cast hbound y hy
    _ = mags.length * 255 := by
          rw [List.length_map, nsmul_eq_mul]
  have hq0 : 0 ≤ (mags.map fun (x : ℕ) => (x : ℚ)).sum / mags.length := by
    positivity
  have hq255 : (mags.map fun (x : ℕ) => (x : ℚ)).sum / mags.length ≤ 255 := by
    rw [div_le_iff₀ hlenq]
    linarith
  refine ⟨hq0, hq255, ?_, ?_⟩
  · rw [frameIntensity]
    positivity
  · rw [frameIntensity, div_le_one (by norm_num)]
    linarith

/-- Claim C8, witness: The amended statement applied to `[255]`, whose
mean is 255 and whose derived intensity is 1. -/
theorem averageFrequency_mean_bounds_witness :
    averageFrequency [255] =
      some ((([255] : List ℕ).map fun (x : ℕ) => (x : ℚ)).sum /
        ([255] : List ℕ).length) ∧
    (0 ≤ (255 : ℚ) ∧ (255 : ℚ) ≤ 255 ∧
      0 ≤ frameIntensity 255 ∧ frameIntensity 255 ≤ 1) :=
  ⟨(averageFrequency_mean_bounds [255] (by simp) (by simp)).1,
   (averageFrequency_mean_bounds [255] (by simp) (by simp)).2 255
     (by norm_num [averageFrequency])⟩
